import Mathlib

/-!
# Verification of the payroll backend's core logic

A shallow embedding, in Lean 4, of the salary-calculation core of the
`postersalary_backend` repository:

* `posterService.js` — `getEmployeeRevenue` (grouping sale transactions into
  per-employee revenue and distinct-working-day counts) and
  `getInventoryResults` (summing inventory-revision differences, with its
  error fallback);
* `salaryService.js` — `calculateSalaries` (pricing, rounding, filtering and
  sorting of the payroll report), `getMonthName` and
  `validateCalculationParams`.

JavaScript numbers are modelled as exact rationals (`ℚ`), with `NaN` made
explicit (`Option ℚ`, `none` = NaN) in the one place the code can produce it:
`parseFloat` of a non-numeric string inside `getEmployeeRevenue`'s
aggregation.  The salary-service boundary (`calculateSalaries`,
`getInventoryResults`) is modelled with plain `ℚ` fields: its claims
quantify over numeric inputs.

JavaScript truthiness is modelled where the code relies on it: a `Nat`
identifier of `0` stands for an absent / falsy (`0`, `undefined`) id field,
an `Option String` of `none` / `some ""` is falsy, and `x || y` becomes the
corresponding conditional.
-/

/-! ## Rounding

Every monetary field of the report is built as `Math.round(x * 100) / 100`.
ECMAScript's `Math.round` returns the integer closest to its argument,
rounding ties toward positive infinity, i.e. `⌊x + 1/2⌋` in exact
arithmetic. -/

/-- `Math.round(x * 100) / 100`: round to two decimals, ties toward `+∞`
(the JavaScript `Math.round` semantics). -/
def round2 (x : ℚ) : ℚ := (⌊x * 100 + 1/2⌋ : ℤ) / 100

/-- Modelled from the spec: "rounded to 2 decimal places using
round-half-away-from-zero at cent granularity".  This is NOT what the code
does; it is the spec's described rounding, stated here so that the two can
be compared.  For a tie, the cent moves away from zero in both signs. -/
def roundAway2 (x : ℚ) : ℚ :=
  if 0 ≤ x then (⌊x * 100 + 1/2⌋ : ℤ) / 100 else -((⌊(-x) * 100 + 1/2⌋ : ℤ) / 100)

/-! ## JavaScript value helpers -/

/-- Truthiness of an optional string field: `undefined`/`null` and `""` are
falsy, every other string is truthy. -/
def strTruthy : Option String → Bool
  | none => false
  | some s => decide (s ≠ "")

/-- Truthiness of an optional numeric field: `undefined` and `0` are falsy.
(`NaN` — also falsy — does not occur among the validated inputs modelled
here.) -/
def qTruthy : Option ℚ → Bool
  | none => false
  | some q => decide (q ≠ 0)

/-! ## posterService: getEmployeeRevenue (lines 91–128)

Transactions are grouped with two mutable objects keyed by the employee id
(`revenueByEmployee`, `shiftsByEmployee`); the two always hold exactly the
same keys (both are written for every processed transaction), so they are
modelled as one association list of `AggEntry` in key-insertion order.
JavaScript enumerates these integer-like keys in ascending numeric order in
`Object.keys`; no property stated below depends on the order of the result
list, so the insertion order is kept. -/

/-- The monetary `total` field of a raw transaction, as JavaScript sees it:
absent, a number, a string with a numeric prefix (what `parseFloat` reads),
the empty string, or a non-numeric string. -/
inductive JSNum where
  | missing
  | num (q : ℚ)
  | strNum (q : ℚ)
  | strEmpty
  | strBad
  deriving DecidableEq

/-- `parseFloat(v || 0)` — the coercion at `posterService.js:108`.
`none` is `NaN`: a truthy string without a numeric prefix parses to `NaN`,
while falsy values (`undefined`, `0`, `""`) fall back to `0` first. -/
def parseTotal : JSNum → Option ℚ
  | .missing => some 0
  | .num q => some q
  | .strNum q => some q
  | .strEmpty => some 0
  | .strBad => none

/-- `NaN`-absorbing addition on `Option ℚ` (`none` = `NaN`). -/
def qadd : Option ℚ → Option ℚ → Option ℚ
  | some a, some b => some (a + b)
  | _, _ => none

/-- One `+=` step of the revenue accumulator (lines 105–108):

```js
if (!revenueByEmployee[employeeId]) { revenueByEmployee[employeeId] = 0; }
revenueByEmployee[employeeId] += parseFloat(transaction.total || 0);
```

The guard fires not only on an absent accumulator but on any FALSY stored
value — `0` or `NaN` — so a `NaN` accumulated from an earlier bad total is
reset to `0` before the next addition. -/
def jsAccAdd (acc v : Option ℚ) : Option ℚ := qadd (some (acc.getD 0)) v

/-- The stored revenue of a bucket after its `+=` steps, starting from the
absent (reset-to-`0`) accumulator. -/
def jsSum (l : List (Option ℚ)) : Option ℚ := l.foldl jsAccAdd (some 0)

/-- A raw sale transaction as `getEmployeeRevenue` reads it.  A `Nat` id of
`0` stands for an absent or otherwise falsy id field. -/
structure Transaction where
  user_id : Nat := 0
  staff_id : Nat := 0
  date_close : Option String := none
  date : Option String := none
  total : JSNum := .missing
  deriving DecidableEq

/-- `transaction.user_id || transaction.staff_id` (line 99). -/
def Transaction.empId (t : Transaction) : Nat :=
  if t.user_id ≠ 0 then t.user_id else t.staff_id

/-- `transaction.date_close || transaction.date` (line 100).  `none` means
the whole expression is `undefined`/`null` (calling `.split` on it throws). -/
def Transaction.dateVal (t : Transaction) : Option String :=
  if strTruthy t.date_close then t.date_close else t.date

/-- `transactionDate.split(' ')[0]` (line 116): the part of the string before
the first space — equal to taking characters while they differ from `' '`. -/
def dateOnly (s : String) : String := ⟨s.data.takeWhile (fun c => c ≠ ' ')⟩

/-- One bucket of the aggregation: the running revenue sum
(`revenueByEmployee[id]`) and the set of distinct dates
(`shiftsByEmployee[id]`, a JS `Set` kept as its insertion-ordered,
duplicate-free list of elements). -/
structure AggEntry where
  employeeId : Nat
  revenue : Option ℚ
  dates : List String
  deriving DecidableEq

/-- `Set.add`: append the date unless it is already present (line 117). -/
def addDate (ds : List String) (d : String) : List String :=
  if d ∈ ds then ds else ds ++ [d]

/-- Update the bucket for `id`, leaving every other bucket unchanged: the
revenue takes a `jsAccAdd` step (an absent bucket starts from the same
reset-to-`0`, lines 105–108), the date set gains `d` (lines 111–117). -/
def aggUpd (id : Nat) (v : Option ℚ) (d : String) : List AggEntry → List AggEntry
  | [] => [⟨id, jsAccAdd none v, addDate [] d⟩]
  | e :: rest =>
    if e.employeeId = id then ⟨e.employeeId, jsAccAdd e.revenue v, addDate e.dates d⟩ :: rest
    else e :: aggUpd id v d rest

/-- The body of the `forEach` (lines 98–118) for one transaction: skip when
the id is falsy; `none` models the `TypeError` thrown by
`transactionDate.split` when both date fields are absent. -/
def aggStep (st : List AggEntry) (t : Transaction) : Option (List AggEntry) :=
  if t.empId = 0 then some st
  else
    match t.dateVal with
    | none => none
    | some s => some (aggUpd t.empId (parseTotal t.total) (dateOnly s) st)

/-- The whole `forEach` loop, stopping at the first thrown `TypeError`. -/
def aggRun : List AggEntry → List Transaction → Option (List AggEntry)
  | st, [] => some st
  | st, t :: ts =>
    match aggStep st t with
    | none => none
    | some st' => aggRun st' ts

/-- One element of `getEmployeeRevenue`'s result (lines 121–125). -/
structure RevAggOut where
  employeeId : Nat
  revenue : Option ℚ
  shiftsCount : Nat
  deriving DecidableEq

/-- `getEmployeeRevenue` (lines 91–128), as a function of the fetched
transaction list.  `none` models the rejected promise when the loop throws. -/
def getEmployeeRevenue (ts : List Transaction) : Option (List RevAggOut) :=
  (aggRun [] ts).map
    (List.map fun e => ⟨e.employeeId, e.revenue, e.dates.length⟩)

/-- The transactions of `ts` belonging to employee `id`. -/
def tsFor (id : Nat) (ts : List Transaction) : List Transaction :=
  ts.filter fun t => decide (t.empId = id)

/-! ## posterService: getInventoryResults (lines 137–180)

The `difference` field is modelled as `Option ℚ` (`none` = missing, coerced
to `0` by `parseFloat(revision.difference || 0)`); non-numeric string
differences are outside the modelled input space — no stated property
concerns them. -/

/-- One inventory revision record. -/
structure Revision where
  difference : Option ℚ := none
  deriving DecidableEq

/-- The result record of `getInventoryResults`. -/
structure InventoryResult where
  month : Nat
  year : Nat
  totalLoss : ℚ
  revisionsCount : Nat
  revisions : List Revision
  deriving DecidableEq

/-- `getInventoryResults` (lines 137–180) as a function of the outcome of the
upstream fetch: on success the signed differences are summed (lines
151–161); a fetch error is caught and replaced by the neutral result of
lines 170–179. -/
def getInventoryResults (month year : Nat) (fetched : Except Unit (List Revision)) :
    InventoryResult :=
  match fetched with
  | .error _ => ⟨month, year, 0, 0, []⟩
  | .ok revs =>
    ⟨month, year, (revs.map fun r => r.difference.getD 0).sum, revs.length, revs⟩

/-! ## salaryService: calculateSalaries (lines 18–128) -/

/-- An employee record from `getEmployees`; `user_id`/`id` of `0` stands for
an absent (falsy) field. -/
structure EmployeeIn where
  user_id : Nat := 0
  id : Nat := 0
  name : Option String := none
  user_name : Option String := none
  deriving DecidableEq

/-- `employee.user_id || employee.id` (line 57). -/
def EmployeeIn.empId (e : EmployeeIn) : Nat :=
  if e.user_id ≠ 0 then e.user_id else e.id

/-- `employee.name || employee.user_name || 'Невідомий'` (line 58). -/
def EmployeeIn.empName (e : EmployeeIn) : String :=
  if strTruthy e.name then e.name.getD ""
  else if strTruthy e.user_name then e.user_name.getD "" else "Невідомий"

/-- One element of the `revenueData` list `calculateSalaries` receives
(numeric-revenue inputs; the NaN-producing coercion is a posterService
concern, modelled there). -/
structure RevenueAgg where
  employeeId : Nat
  revenue : ℚ
  shiftsCount : Nat
  deriving DecidableEq

/-- `revenueMap[employeeId] || 0` (lines 44–50, 61): the map is filled by
assignment in list order, so the last entry with a given id wins; a missing
id — and a stored `0` — yields `0`. -/
def revenueLookup (rd : List RevenueAgg) (id : Nat) : ℚ :=
  ((rd.reverse.find? fun a => decide (a.employeeId = id)).map (·.revenue)).getD 0

/-- `shiftsMap[employeeId] || 0` (lines 44–50, 60). -/
def shiftsLookup (rd : List RevenueAgg) (id : Nat) : Nat :=
  ((rd.reverse.find? fun a => decide (a.employeeId = id)).map (·.shiftsCount)).getD 0

/-- `revenueData.reduce((sum, data) => sum + data.revenue, 0)` (line 53). -/
def totalRevenueOf (rd : List RevenueAgg) : ℚ := (rd.map (·.revenue)).sum

/-- `shiftsCount` of one employee (line 60). -/
def shiftsCountOf (rd : List RevenueAgg) (e : EmployeeIn) : Nat :=
  shiftsLookup rd e.empId

/-- `revenue` of one employee (line 61). -/
def revenueOf (rd : List RevenueAgg) (e : EmployeeIn) : ℚ :=
  revenueLookup rd e.empId

/-- `baseSalary = shiftsCount * shiftRate` (line 64), before rounding. -/
def baseSalaryRaw (shiftRate : ℚ) (rd : List RevenueAgg) (e : EmployeeIn) : ℚ :=
  (shiftsCountOf rd e : ℚ) * shiftRate

/-- `revenueBonus = revenue * (revenuePercent / 100)` (line 67), before
rounding. -/
def revenueBonusRaw (revenuePercent : ℚ) (rd : List RevenueAgg) (e : EmployeeIn) : ℚ :=
  revenueOf rd e * (revenuePercent / 100)

/-- `inventoryDeduction` (lines 70–75), before rounding:
`Math.abs(totalLoss) * (revenue / totalRevenue)` when there is a shortage
and a positive total revenue, `0` otherwise. -/
def inventoryDeductionRaw (totalLoss : ℚ) (rd : List RevenueAgg) (e : EmployeeIn) : ℚ :=
  if totalLoss < 0 ∧ 0 < totalRevenueOf rd then
    |totalLoss| * (revenueOf rd e / totalRevenueOf rd)
  else 0

/-- `totalSalary = baseSalary + revenueBonus - inventoryDeduction` (line 78),
before rounding. -/
def totalSalaryRaw (shiftRate revenuePercent totalLoss : ℚ) (rd : List RevenueAgg)
    (e : EmployeeIn) : ℚ :=
  baseSalaryRaw shiftRate rd e + revenueBonusRaw revenuePercent rd e -
    inventoryDeductionRaw totalLoss rd e

/-- One line of the report (lines 80–89). -/
structure SalaryLine where
  employeeId : Nat
  employeeName : String
  shiftsCount : Nat
  revenue : ℚ
  baseSalary : ℚ
  revenueBonus : ℚ
  inventoryDeduction : ℚ
  totalSalary : ℚ
  deriving DecidableEq

/-- The object returned for one employee by the `map` body (lines 56–90):
each monetary field is rounded independently. -/
def salaryLine (shiftRate revenuePercent totalLoss : ℚ) (rd : List RevenueAgg)
    (e : EmployeeIn) : SalaryLine :=
  { employeeId := e.empId
    employeeName := e.empName
    shiftsCount := shiftsCountOf rd e
    revenue := round2 (revenueOf rd e)
    baseSalary := round2 (baseSalaryRaw shiftRate rd e)
    revenueBonus := round2 (revenueBonusRaw revenuePercent rd e)
    inventoryDeduction := round2 (inventoryDeductionRaw totalLoss rd e)
    totalSalary := round2 (totalSalaryRaw shiftRate revenuePercent totalLoss rd e) }

/-- `getMonthName` (lines 259–265).  In JavaScript `months[month - 1]` is
`undefined` for `month = 0` (index `-1`) and for any index past the end, and
`|| 'Невідомий місяць'` supplies the fallback. -/
def getMonthName (month : Nat) : String :=
  if month = 0 then "Невідомий місяць"
  else
    ["Січень", "Лютий", "Березень", "Квітень", "Травень", "Червень",
     "Липень", "Серпень", "Вересень", "Жовтень", "Листопад", "Грудень"].getD
      (month - 1) "Невідомий місяць"

/-- `period` of the report (lines 98–102). -/
structure Period where
  month : Nat
  year : Nat
  monthName : String
  deriving DecidableEq

/-- `parameters` of the report (lines 103–106). -/
structure CalcParameters where
  shiftRate : ℚ
  revenuePercent : ℚ
  deriving DecidableEq

/-- `inventory` of the report (lines 107–112). -/
structure InventorySummary where
  month : Nat
  year : Nat
  totalLoss : ℚ
  revisionsCount : Nat
  deriving DecidableEq

/-- `summary` of the report (lines 113–120). -/
structure Summary where
  employeesCount : Nat
  totalRevenue : ℚ
  totalBaseSalary : ℚ
  totalRevenueBonus : ℚ
  totalInventoryDeduction : ℚ
  totalSalary : ℚ
  deriving DecidableEq

/-- The full report (lines 96–122). -/
structure PayrollReport where
  success : Bool
  period : Period
  parameters : CalcParameters
  inventory : InventorySummary
  summary : Summary
  employees : List SalaryLine
  deriving DecidableEq

/-- The sort comparator of line 121, `(a, b) => b.totalSalary - a.totalSalary`:
`a` is placed no later than `b` exactly when `b.totalSalary ≤ a.totalSalary`
(descending order).  ECMAScript's `Array.prototype.sort` is stable;
`List.insertionSort` with this relation is the stable descending sort. -/
def salaryOrder (a b : SalaryLine) : Prop := b.totalSalary ≤ a.totalSalary

instance : DecidableRel salaryOrder := fun a b =>
  inferInstanceAs (Decidable (b.totalSalary ≤ a.totalSalary))

/-- The pure core of `calculateSalaries` (lines 18–128), as a function of the
three fetched data sets and the request parameters.  The date-string
construction (lines 32–34) only shapes the upstream query and is not part of
the computation on fetched data. -/
def calculateSalaries (employees : List EmployeeIn) (revenueData : List RevenueAgg)
    (inventoryResults : InventoryResult) (month year inventoryMonth inventoryYear : Nat)
    (shiftRate revenuePercent : ℚ) : PayrollReport :=
  let totalRevenue := totalRevenueOf revenueData
  let salaryResults := employees.map
    (salaryLine shiftRate revenuePercent inventoryResults.totalLoss revenueData)
  let workingEmployees := salaryResults.filter fun emp => decide (0 < emp.shiftsCount)
  { success := true
    period := ⟨month, year, getMonthName month⟩
    parameters := ⟨shiftRate, revenuePercent⟩
    inventory := ⟨inventoryMonth, inventoryYear, round2 inventoryResults.totalLoss,
      inventoryResults.revisionsCount⟩
    summary :=
      ⟨workingEmployees.length, round2 totalRevenue,
        round2 ((workingEmployees.map (·.baseSalary)).sum),
        round2 ((workingEmployees.map (·.revenueBonus)).sum),
        round2 ((workingEmployees.map (·.inventoryDeduction)).sum),
        round2 ((workingEmployees.map (·.totalSalary)).sum)⟩
    employees := List.insertionSort salaryOrder workingEmployees }

/-! ## salaryService: validateCalculationParams (lines 270–292) -/

/-- The request parameters as `validateCalculationParams` sees them: `none`
is an absent (`undefined`) field. -/
structure SalaryParams where
  account : Option String := none
  accessToken : Option String := none
  month : Option ℚ := none
  year : Option ℚ := none
  shiftRate : Option ℚ := none
  revenuePercent : Option ℚ := none

/-- The result of validation (lines 288–291). -/
structure ValidationResult where
  isValid : Bool
  errors : List String
  deriving DecidableEq

/-- A conditional `errors.push(msg)`. -/
def errIf (b : Bool) (msg : String) : List String := if b then [msg] else []

/-- `validateCalculationParams` (lines 270–292): every violated rule pushes
its message, in source order.  `!params.month || params.month < 1 || ...`
is modelled with the undefined comparison short-circuited away (in
JavaScript `undefined < 1` is `false`, and that disjunct is only reached
when the field is truthy). -/
def validateCalculationParams (p : SalaryParams) : ValidationResult :=
  let errors :=
    errIf (!strTruthy p.account) "Account is required" ++
    errIf (!strTruthy p.accessToken) "Access token is required" ++
    errIf (!qTruthy p.month || decide (p.month.getD 0 < 1) ||
      decide (12 < p.month.getD 0)) "Invalid month (must be 1-12)" ++
    errIf (!qTruthy p.year || decide (p.year.getD 0 < 2000)) "Invalid year" ++
    errIf (p.shiftRate.isNone || decide (p.shiftRate.getD 0 < 0)) "Invalid shift rate" ++
    errIf (p.revenuePercent.isNone || decide (p.revenuePercent.getD 0 < 0) ||
      decide (100 < p.revenuePercent.getD 0)) "Invalid revenue percent (must be 0-100)"
  ⟨errors.length == 0, errors⟩

/-! ## Helper lemmas: rounding -/

/-- Evaluate `round2` at a concrete value: if `n ≤ 100·x + 1/2 < n + 1` then
`round2 x = n / 100`. -/
theorem round2_eq (x : ℚ) (n : ℤ) (h₁ : (n : ℚ) ≤ x * 100 + 1/2)
    (h₂ : x * 100 + 1/2 < n + 1) : round2 x = (n : ℚ) / 100 := by
  unfold round2
  rw [Int.floor_eq_iff.mpr ⟨h₁, h₂⟩]

theorem round2_zero : round2 0 = 0 := by
  rw [round2_eq 0 0 (by norm_num) (by norm_num)]
  norm_num

/-- `round2` lands within half a cent of its argument, the upper bound being
attained exactly at ties. -/
theorem round2_bounds (x : ℚ) : x - 1/200 < round2 x ∧ round2 x ≤ x + 1/200 := by
  have h₁ : (⌊x * 100 + 1/2⌋ : ℚ) ≤ x * 100 + 1/2 := Int.floor_le _
  have h₂ : x * 100 + 1/2 < (⌊x * 100 + 1/2⌋ : ℚ) + 1 := Int.lt_floor_add_one _
  unfold round2
  constructor <;> [linarith; linarith]

/-- A value exactly halfway between two cents rounds toward `+∞`: for
negative `k` this moves the value toward zero, not away from it. -/
theorem round2_half (k : ℤ) : round2 ((k : ℚ) / 100 + 1/200) = ((k : ℚ) + 1) / 100 := by
  have h : ((k : ℚ) / 100 + 1/200) * 100 + 1/2 = ((k + 1 : ℤ) : ℚ) := by
    push_cast; ring
  unfold round2
  rw [h, Int.floor_intCast]
  push_cast; ring

/-! ## Helper lemmas: salaryLine and calculateSalaries projections -/

@[simp] theorem salaryLine_employeeId (sr rp L : ℚ) (rd : List RevenueAgg) (e : EmployeeIn) :
    (salaryLine sr rp L rd e).employeeId = e.empId := rfl

@[simp] theorem salaryLine_employeeName (sr rp L : ℚ) (rd : List RevenueAgg) (e : EmployeeIn) :
    (salaryLine sr rp L rd e).employeeName = e.empName := rfl

@[simp] theorem salaryLine_shiftsCount (sr rp L : ℚ) (rd : List RevenueAgg) (e : EmployeeIn) :
    (salaryLine sr rp L rd e).shiftsCount = shiftsCountOf rd e := rfl

@[simp] theorem salaryLine_revenue (sr rp L : ℚ) (rd : List RevenueAgg) (e : EmployeeIn) :
    (salaryLine sr rp L rd e).revenue = round2 (revenueOf rd e) := rfl

@[simp] theorem salaryLine_baseSalary (sr rp L : ℚ) (rd : List RevenueAgg) (e : EmployeeIn) :
    (salaryLine sr rp L rd e).baseSalary = round2 (baseSalaryRaw sr rd e) := rfl

@[simp] theorem salaryLine_revenueBonus (sr rp L : ℚ) (rd : List RevenueAgg) (e : EmployeeIn) :
    (salaryLine sr rp L rd e).revenueBonus = round2 (revenueBonusRaw rp rd e) := rfl

@[simp] theorem salaryLine_inventoryDeduction (sr rp L : ℚ) (rd : List RevenueAgg)
    (e : EmployeeIn) :
    (salaryLine sr rp L rd e).inventoryDeduction = round2 (inventoryDeductionRaw L rd e) := rfl

@[simp] theorem salaryLine_totalSalary (sr rp L : ℚ) (rd : List RevenueAgg) (e : EmployeeIn) :
    (salaryLine sr rp L rd e).totalSalary = round2 (totalSalaryRaw sr rp L rd e) := rfl

theorem calculateSalaries_employees (E : List EmployeeIn) (rd : List RevenueAgg)
    (inv : InventoryResult) (m y im iy : Nat) (sr rp : ℚ) :
    (calculateSalaries E rd inv m y im iy sr rp).employees
      = List.insertionSort salaryOrder
          ((E.map (salaryLine sr rp inv.totalLoss rd)).filter
            fun l => decide (0 < l.shiftsCount)) := rfl

theorem calculateSalaries_inventory_totalLoss (E : List EmployeeIn) (rd : List RevenueAgg)
    (inv : InventoryResult) (m y im iy : Nat) (sr rp : ℚ) :
    (calculateSalaries E rd inv m y im iy sr rp).inventory.totalLoss
      = round2 inv.totalLoss := rfl

/-- Membership in the report's employee list: exactly the priced lines of the
input employees that record at least one shift. -/
theorem mem_calculateSalaries_employees {E : List EmployeeIn} {rd : List RevenueAgg}
    {inv : InventoryResult} {m y im iy : Nat} {sr rp : ℚ} {l : SalaryLine} :
    l ∈ (calculateSalaries E rd inv m y im iy sr rp).employees ↔
      (∃ e ∈ E, salaryLine sr rp inv.totalLoss rd e = l) ∧ 0 < l.shiftsCount := by
  rw [calculateSalaries_employees, (List.perm_insertionSort _ _).mem_iff, List.mem_filter,
    List.mem_map]
  simp

/-! ## Helper lemmas: the revenue lookup -/

/-- In a list whose `employeeId`s are distinct, `find?` by an element's own id
finds that element. -/
theorem find?_eq_self_of_nodup_ids :
    ∀ (l : List RevenueAgg), (l.map RevenueAgg.employeeId).Nodup →
      ∀ a ∈ l, (l.find? fun b => decide (b.employeeId = a.employeeId)) = some a := by
  intro l
  induction l with
  | nil => intro _ a ha; cases ha
  | cons b l ih =>
    intro hnd a ha
    rw [List.map_cons, List.nodup_cons] at hnd
    rcases List.mem_cons.mp ha with rfl | ha
    · simp [List.find?]
    · have hne : b.employeeId ≠ a.employeeId := by
        intro he
        exact hnd.1 (he ▸ List.mem_map_of_mem RevenueAgg.employeeId ha)
      rw [List.find?]
      simp only [hne, decide_eq_true_eq, if_false, decide_False]
      exact ih hnd.2 a ha

/-- With distinct ids, the (last-wins) revenue lookup of a listed aggregate's
id is its revenue. -/
theorem revenueLookup_mem {rd : List RevenueAgg} (hnd : (rd.map RevenueAgg.employeeId).Nodup)
    {a : RevenueAgg} (ha : a ∈ rd) : revenueLookup rd a.employeeId = a.revenue := by
  unfold revenueLookup
  rw [find?_eq_self_of_nodup_ids rd.reverse
    (by rw [List.map_reverse]; exact List.nodup_reverse.mpr hnd) a (List.mem_reverse.mpr ha)]
  rfl

/-- The lookup of an id that no aggregate carries yields `0`. -/
theorem revenueLookup_not_mem {rd : List RevenueAgg} {id : Nat}
    (h : id ∉ rd.map RevenueAgg.employeeId) : revenueLookup rd id = 0 := by
  unfold revenueLookup
  rw [List.find?_eq_none.mpr]
  · rfl
  · intro b hb hbid
    rw [decide_eq_true_eq] at hbid
    exact h (hbid ▸ List.mem_map_of_mem RevenueAgg.employeeId (List.mem_reverse.mp hb))

/-- Pulling a constant factor out of a list sum. -/
theorem sum_map_const_mul (c : ℚ) (f : EmployeeIn → ℚ) :
    ∀ l : List EmployeeIn, (l.map fun e => c * f e).sum = c * (l.map f).sum := by
  intro l
  induction l with
  | nil => simp
  | cons e l ih => simp [ih, mul_add]

/-- If the multiset of employee ids is the multiset of aggregate ids plus ids
that carry no revenue, the looked-up revenues sum back to `totalRevenue`. -/
theorem sum_revenueLookup (E : List EmployeeIn) (rd : List RevenueAgg) (extra : List Nat)
    (hnd : (rd.map RevenueAgg.employeeId).Nodup)
    (hperm : (E.map EmployeeIn.empId).Perm (rd.map RevenueAgg.employeeId ++ extra))
    (hextra : ∀ i ∈ extra, i ∉ rd.map RevenueAgg.employeeId) :
    (E.map fun e => revenueLookup rd e.empId).sum = totalRevenueOf rd := by
  have h1 : (E.map fun e => revenueLookup rd e.empId)
      = (E.map EmployeeIn.empId).map (revenueLookup rd) := by
    rw [List.map_map]; rfl
  rw [h1, (hperm.map (revenueLookup rd)).sum_eq, List.map_append, List.sum_append]
  have h2 : ((rd.map RevenueAgg.employeeId).map (revenueLookup rd)).sum = totalRevenueOf rd := by
    rw [List.map_map]
    unfold totalRevenueOf
    congr 1
    refine List.map_congr_left fun a ha => ?_
    exact revenueLookup_mem hnd ha
  have h3 : ((extra.map (revenueLookup rd))).sum = 0 := by
    refine List.sum_eq_zero fun x hx => ?_
    rcases List.mem_map.mp hx with ⟨i, hi, rfl⟩
    exact revenueLookup_not_mem (hextra i hi)
  rw [h2, h3, add_zero]

/-- C1.  In `calculateSalaries`, every employee's inventory deduction is `0`
when the inventory result shows no shortage (`totalLoss ≥ 0`) or the total
revenue is `0`; otherwise the pre-rounding deduction is
`|totalLoss| · (employeeRevenue / totalRevenue)`, it is `0` for employees
without revenue, and — whenever the employee list carries each
revenue-bearing id exactly once (plus possibly ids without revenue data) —
the pre-rounding deductions summed over all employees, before the
`shifts > 0` filter, reproduce `|totalLoss|` exactly. -/
theorem calculateSalaries_inventoryDeduction_proportional (E : List EmployeeIn)
    (rd : List RevenueAgg) (inv : InventoryResult) (m y im iy : Nat) (sr rp : ℚ) :
    (∀ l ∈ (calculateSalaries E rd inv m y im iy sr rp).employees,
      0 ≤ inv.totalLoss ∨ totalRevenueOf rd = 0 → l.inventoryDeduction = 0)
    ∧ (∀ e : EmployeeIn, 0 ≤ inv.totalLoss ∨ totalRevenueOf rd = 0 →
        (salaryLine sr rp inv.totalLoss rd e).inventoryDeduction = 0)
    ∧ (∀ e : EmployeeIn, inv.totalLoss < 0 → 0 < totalRevenueOf rd →
        inventoryDeductionRaw inv.totalLoss rd e
          = |inv.totalLoss| * (revenueOf rd e / totalRevenueOf rd))
    ∧ (∀ e : EmployeeIn, revenueOf rd e = 0 → inventoryDeductionRaw inv.totalLoss rd e = 0)
    ∧ (inv.totalLoss < 0 → 0 < totalRevenueOf rd →
        ∀ extra : List Nat, (rd.map RevenueAgg.employeeId).Nodup →
          (E.map EmployeeIn.empId).Perm (rd.map RevenueAgg.employeeId ++ extra) →
          (∀ i ∈ extra, i ∉ rd.map RevenueAgg.employeeId) →
          (E.map (inventoryDeductionRaw inv.totalLoss rd)).sum = |inv.totalLoss|) := by
  have hzero : ∀ e : EmployeeIn, 0 ≤ inv.totalLoss ∨ totalRevenueOf rd = 0 →
      inventoryDeductionRaw inv.totalLoss rd e = 0 := by
    intro e h
    unfold inventoryDeductionRaw
    rw [if_neg]
    rcases h with h | h
    · exact fun hc => absurd hc.1 (not_lt.mpr h)
    · exact fun hc => absurd hc.2 (by rw [h]; exact lt_irrefl 0)
  refine ⟨?_, ?_, ?_, ?_, ?_⟩
  · intro l hl h
    rcases (mem_calculateSalaries_employees.mp hl).1 with ⟨e, _, rfl⟩
    rw [salaryLine_inventoryDeduction, hzero e h, round2_zero]
  · intro e h
    rw [salaryLine_inventoryDeduction, hzero e h, round2_zero]
  · intro e hL hT
    unfold inventoryDeductionRaw
    rw [if_pos ⟨hL, hT⟩]
  · intro e h
    unfold inventoryDeductionRaw
    split
    · rw [h, zero_div, mul_zero]
    · rfl
  · intro hL hT extra hnd hperm hextra
    have h1 : E.map (inventoryDeductionRaw inv.totalLoss rd)
        = E.map fun e => |inv.totalLoss| / totalRevenueOf rd * revenueLookup rd e.empId := by
      refine List.map_congr_left fun e _ => ?_
      unfold inventoryDeductionRaw
      rw [if_pos ⟨hL, hT⟩]
      unfold revenueOf
      ring
    rw [h1, sum_map_const_mul, sum_revenueLookup E rd extra hnd hperm hextra,
      div_mul_cancel₀ _ (ne_of_gt hT)]

/-- C2 counterexample.  With one employee who worked one shift at a rate of
`1/250` (0.004) and earned revenue `2/25` (0.08) at a 5% bonus, the report
line's `totalSalary` is `0.01` (the single rounding of `0.004 + 0.004`),
while the rounded parts sum to `0 + 0 − 0 = 0`: the post-rounding identity
`totalSalary = baseSalary + revenueBonus − inventoryDeduction` fails. -/
theorem totalSalary_not_sum_of_rounded_parts :
    ((calculateSalaries [⟨1, 0, none, none⟩] [⟨1, 2/25, 1⟩] ⟨1, 2024, 0, 0, []⟩ 1 2024 1 2024
        (1/250) 5).employees.map fun l =>
          (l.totalSalary, l.baseSalary + l.revenueBonus - l.inventoryDeduction))
      = [(1/100, 0)] ∧ ((1 : ℚ)/100 ≠ 0) := by
  have h2 : shiftsCountOf [⟨1, 2/25, 1⟩] ⟨1, 0, none, none⟩ = 1 := rfl
  have hbase : baseSalaryRaw (1/250) [⟨1, 2/25, 1⟩] ⟨1, 0, none, none⟩ = 1/250 := by
    rw [baseSalaryRaw, h2]; norm_num
  have hbonus : revenueBonusRaw 5 [⟨1, 2/25, 1⟩] ⟨1, 0, none, none⟩ = 1/250 := by
    rw [revenueBonusRaw, show revenueOf [⟨1, 2/25, 1⟩] ⟨1, 0, none, none⟩ = 2/25 from rfl]
    norm_num
  have hded : inventoryDeductionRaw 0 [⟨1, 2/25, 1⟩] ⟨1, 0, none, none⟩ = 0 := by
    rw [inventoryDeductionRaw, if_neg]
    rintro ⟨h, -⟩
    exact absurd h (lt_irrefl 0)
  have htot : totalSalaryRaw (1/250) 5 0 [⟨1, 2/25, 1⟩] ⟨1, 0, none, none⟩ = 1/125 := by
    rw [totalSalaryRaw, hbase, hbonus, hded]; norm_num
  have hr0 : round2 ((1 : ℚ)/250) = 0 := by
    rw [round2_eq _ 0 (by norm_num) (by norm_num)]; norm_num
  have hr1 : round2 ((1 : ℚ)/125) = 1/100 := by
    rw [round2_eq _ 1 (by norm_num) (by norm_num)]; norm_num
  constructor
  · rw [calculateSalaries_employees]
    simp only [List.map_cons, List.map_nil, List.filter, salaryLine_shiftsCount, h2]
    norm_num [List.insertionSort, List.orderedInsert, salaryLine_totalSalary,
      salaryLine_baseSalary, salaryLine_revenueBonus, salaryLine_inventoryDeduction,
      htot, hbase, hbonus, hded, hr0, hr1, round2_zero]
  · norm_num

/-- C2 (amended).  For every line of the report, the pre-rounding identity
holds: `totalSalary` is the single rounding of the exact
`baseSalary + revenueBonus − inventoryDeduction`, computed before any
rounding.  It is not in general the sum of the independently rounded parts,
but it differs from that sum by less than two cents. -/
theorem calculateSalaries_totalSalary_rounds_exact_sum (E : List EmployeeIn)
    (rd : List RevenueAgg) (inv : InventoryResult) (m y im iy : Nat) (sr rp : ℚ)
    (l : SalaryLine) (hl : l ∈ (calculateSalaries E rd inv m y im iy sr rp).employees) :
    ∃ e ∈ E, l = salaryLine sr rp inv.totalLoss rd e
      ∧ l.totalSalary = round2 (baseSalaryRaw sr rd e + revenueBonusRaw rp rd e
          - inventoryDeductionRaw inv.totalLoss rd e)
      ∧ |l.totalSalary - (l.baseSalary + l.revenueBonus - l.inventoryDeduction)| < 2/100 := by
  rcases (mem_calculateSalaries_employees.mp hl).1 with ⟨e, he, rfl⟩
  refine ⟨e, he, rfl, rfl, ?_⟩
  rw [salaryLine_totalSalary, salaryLine_baseSalary, salaryLine_revenueBonus,
    salaryLine_inventoryDeduction]
  obtain ⟨ht₁, ht₂⟩ := round2_bounds (totalSalaryRaw sr rp inv.totalLoss rd e)
  obtain ⟨hb₁, hb₂⟩ := round2_bounds (baseSalaryRaw sr rd e)
  obtain ⟨hr₁, hr₂⟩ := round2_bounds (revenueBonusRaw rp rd e)
  obtain ⟨hd₁, hd₂⟩ := round2_bounds (inventoryDeductionRaw inv.totalLoss rd e)
  rw [abs_lt]
  unfold totalSalaryRaw at ht₁ ht₂ ⊢
  constructor <;> linarith [ht₁, ht₂, hb₁, hb₂, hr₁, hr₂, hd₁, hd₂]

/-- C2 witness: the amended statement instantiated at the counterexample's
input, whose single report line records one shift. -/
theorem calculateSalaries_totalSalary_rounds_exact_sum_witness :
    (salaryLine (1/250) 5 (0 : ℚ) [⟨1, 2/25, 1⟩] ⟨1, 0, none, none⟩
        ∈ (calculateSalaries [⟨1, 0, none, none⟩] [⟨1, 2/25, 1⟩] ⟨1, 2024, 0, 0, []⟩
            1 2024 1 2024 (1/250) 5).employees)
    ∧ ∃ e ∈ [(⟨1, 0, none, none⟩ : EmployeeIn)],
        salaryLine (1/250) 5 (0 : ℚ) [⟨1, 2/25, 1⟩] ⟨1, 0, none, none⟩
            = salaryLine (1/250) 5 ((⟨1, 2024, 0, 0, []⟩ : InventoryResult).totalLoss)
                [⟨1, 2/25, 1⟩] e
          ∧ (salaryLine (1/250) 5 (0 : ℚ) [⟨1, 2/25, 1⟩] ⟨1, 0, none, none⟩).totalSalary
              = round2 (baseSalaryRaw (1/250) [⟨1, 2/25, 1⟩] e
                  + revenueBonusRaw 5 [⟨1, 2/25, 1⟩] e
                  - inventoryDeductionRaw ((⟨1, 2024, 0, 0, []⟩ : InventoryResult).totalLoss)
                      [⟨1, 2/25, 1⟩] e)
          ∧ |(salaryLine (1/250) 5 (0 : ℚ) [⟨1, 2/25, 1⟩] ⟨1, 0, none, none⟩).totalSalary
              - ((salaryLine (1/250) 5 (0 : ℚ) [⟨1, 2/25, 1⟩] ⟨1, 0, none, none⟩).baseSalary
                + (salaryLine (1/250) 5 (0 : ℚ) [⟨1, 2/25, 1⟩] ⟨1, 0, none, none⟩).revenueBonus
                - (salaryLine (1/250) 5 (0 : ℚ) [⟨1, 2/25, 1⟩]
                    ⟨1, 0, none, none⟩).inventoryDeduction)| < 2/100 := by
  have hmem : salaryLine (1/250) 5 (0 : ℚ) [⟨1, 2/25, 1⟩] ⟨1, 0, none, none⟩
      ∈ (calculateSalaries [⟨1, 0, none, none⟩] [⟨1, 2/25, 1⟩] ⟨1, 2024, 0, 0, []⟩
          1 2024 1 2024 (1/250) 5).employees := by
    refine mem_calculateSalaries_employees.mpr ⟨⟨⟨1, 0, none, none⟩, by simp, rfl⟩, ?_⟩
    show 0 < shiftsCountOf [⟨1, 2/25, 1⟩] ⟨1, 0, none, none⟩
    norm_num [shiftsCountOf, shiftsLookup, EmployeeIn.empId]
  exact ⟨hmem, calculateSalaries_totalSalary_rounds_exact_sum
    [⟨1, 0, none, none⟩] [⟨1, 2/25, 1⟩] ⟨1, 2024, 0, 0, []⟩ 1 2024 1 2024 (1/250) 5 _ hmem⟩

/-- C3 counterexample.  A raw inventory loss of `−0.005` — a negative value
whose cent fraction is exactly one half — is reported as `0`:
`Math.round(-0.5) = -0` rounds the tie toward `+∞`, i.e. toward zero, while
round-half-away-from-zero would report `−0.01`. -/
theorem inventory_totalLoss_not_rounded_away_from_zero :
    (calculateSalaries [] [] ⟨3, 2024, -(1/200), 1, [⟨some (-(1/200))⟩]⟩ 4 2024 3 2024
        500 5).inventory.totalLoss = 0
    ∧ roundAway2 (-(1/200)) = -(1/100)
    ∧ (0 : ℚ) ≠ -(1/100) := by
  refine ⟨?_, ?_, by norm_num⟩
  · rw [calculateSalaries_inventory_totalLoss]
    show round2 (-(1/200)) = 0
    rw [round2_eq _ 0 (by norm_num) (by norm_num)]
    norm_num
  · rw [roundAway2, if_neg (by norm_num), (by norm_num : (-(-(1/200)) : ℚ) * 100 + 1/2 = 1),
      Int.floor_one]
    norm_num

/-- C3 (amended).  Every monetary field of the report is rounded to two
decimals at cent granularity with JavaScript's `Math.round`, i.e.
round-half-UP (ties toward `+∞`): the result is a whole number of cents
within half a cent of the raw value, a value exactly on a half-cent rounds
to the next cent toward `+∞` (so a negative tie moves toward zero, not away
from it), and each field — per-line values, the inventory's `totalLoss` and
every summary sum — is that rounding of its raw value. -/
theorem calculateSalaries_fields_rounded_half_up :
    (∀ x : ℚ, (x - 1/200 < round2 x ∧ round2 x ≤ x + 1/200) ∧ ∃ n : ℤ, round2 x = (n : ℚ)/100)
    ∧ (∀ k : ℤ, round2 ((k : ℚ)/100 + 1/200) = ((k : ℚ) + 1)/100)
    ∧ (∀ (sr rp L : ℚ) (rd : List RevenueAgg) (e : EmployeeIn),
        (salaryLine sr rp L rd e).revenue = round2 (revenueOf rd e)
        ∧ (salaryLine sr rp L rd e).baseSalary = round2 (baseSalaryRaw sr rd e)
        ∧ (salaryLine sr rp L rd e).revenueBonus = round2 (revenueBonusRaw rp rd e)
        ∧ (salaryLine sr rp L rd e).inventoryDeduction
            = round2 (inventoryDeductionRaw L rd e)
        ∧ (salaryLine sr rp L rd e).totalSalary
            = round2 (totalSalaryRaw sr rp L rd e))
    ∧ (∀ (E : List EmployeeIn) (rd : List RevenueAgg) (inv : InventoryResult)
        (m y im iy : Nat) (sr rp : ℚ),
        (calculateSalaries E rd inv m y im iy sr rp).inventory.totalLoss
            = round2 inv.totalLoss
        ∧ (calculateSalaries E rd inv m y im iy sr rp).summary.totalRevenue
            = round2 (totalRevenueOf rd)
        ∧ (calculateSalaries E rd inv m y im iy sr rp).summary.totalBaseSalary
            = round2 ((((E.map (salaryLine sr rp inv.totalLoss rd)).filter
                fun l => decide (0 < l.shiftsCount)).map (·.baseSalary)).sum)
        ∧ (calculateSalaries E rd inv m y im iy sr rp).summary.totalRevenueBonus
            = round2 ((((E.map (salaryLine sr rp inv.totalLoss rd)).filter
                fun l => decide (0 < l.shiftsCount)).map (·.revenueBonus)).sum)
        ∧ (calculateSalaries E rd inv m y im iy sr rp).summary.totalInventoryDeduction
            = round2 ((((E.map (salaryLine sr rp inv.totalLoss rd)).filter
                fun l => decide (0 < l.shiftsCount)).map (·.inventoryDeduction)).sum)
        ∧ (calculateSalaries E rd inv m y im iy sr rp).summary.totalSalary
            = round2 ((((E.map (salaryLine sr rp inv.totalLoss rd)).filter
                fun l => decide (0 < l.shiftsCount)).map (·.totalSalary)).sum)) := by
  refine ⟨fun x => ⟨round2_bounds x, ⟨⌊x * 100 + 1/2⌋, rfl⟩⟩, round2_half, ?_, ?_⟩
  · exact fun sr rp L rd e => ⟨rfl, rfl, rfl, rfl, rfl⟩
  · exact fun E rd inv m y im iy sr rp => ⟨rfl, rfl, rfl, rfl, rfl, rfl⟩

/-- C5.  Zero-shift employees are priced and then filtered out: every line of
the final report records a positive shift count, and no id whose shift
lookup is `0` — whatever its revenue — appears among the report's lines. -/
theorem calculateSalaries_only_working_employees (E : List EmployeeIn) (rd : List RevenueAgg)
    (inv : InventoryResult) (m y im iy : Nat) (sr rp : ℚ) :
    (∀ l ∈ (calculateSalaries E rd inv m y im iy sr rp).employees, 0 < l.shiftsCount)
    ∧ (∀ e ∈ E, shiftsCountOf rd e = 0 →
        ∀ l ∈ (calculateSalaries E rd inv m y im iy sr rp).employees, l.employeeId ≠ e.empId) := by
  constructor
  · intro l hl
    exact (mem_calculateSalaries_employees.mp hl).2
  · intro e _ hse l hl hid
    obtain ⟨⟨e', _, rfl⟩, hpos⟩ := mem_calculateSalaries_employees.mp hl
    rw [salaryLine_shiftsCount] at hpos
    rw [salaryLine_employeeId] at hid
    unfold shiftsCountOf at hpos hse
    rw [hid, hse] at hpos
    exact absurd hpos (lt_irrefl 0)

/-- C8.  A failed inventory fetch is absorbed by `getInventoryResults`: the
fallback result carries `totalLoss = 0` and `revisionsCount = 0`, the report
computed from it is identical to the one computed from an empty revision
list, and no line of that report carries any inventory deduction. -/
theorem inventory_fetch_failure_neutral (E : List EmployeeIn) (rd : List RevenueAgg)
    (m y im iy : Nat) (sr rp : ℚ) :
    getInventoryResults im iy (.error ()) = ⟨im, iy, 0, 0, []⟩
    ∧ calculateSalaries E rd (getInventoryResults im iy (.error ())) m y im iy sr rp
        = calculateSalaries E rd (getInventoryResults im iy (.ok [])) m y im iy sr rp
    ∧ ∀ l ∈ (calculateSalaries E rd (getInventoryResults im iy (.error ()))
        m y im iy sr rp).employees, l.inventoryDeduction = 0 := by
  refine ⟨rfl, rfl, ?_⟩
  intro l hl
  obtain ⟨⟨e, _, rfl⟩, -⟩ := mem_calculateSalaries_employees.mp hl
  rw [salaryLine_inventoryDeduction]
  have h0 : inventoryDeductionRaw (getInventoryResults im iy (.error ())).totalLoss rd e
      = 0 := by
    unfold inventoryDeductionRaw
    rw [if_neg]
    rintro ⟨hc, -⟩
    exact absurd hc (by norm_num [getInventoryResults])
  rw [h0, round2_zero]

/-! ## Helper lemmas: stability of the report sort -/

instance : IsTotal SalaryLine salaryOrder :=
  ⟨fun a b => le_total b.totalSalary a.totalSalary⟩

instance : IsTrans SalaryLine salaryOrder :=
  ⟨fun _ _ _ hab hbc => le_trans hbc hab⟩

/-- Inserting `a` with the descending comparator passes only over lines with
a strictly larger `totalSalary`, so the sublist of lines at any fixed
`totalSalary` value is unchanged (up to `a` landing in front of its own
group). -/
theorem filter_orderedInsert_totalSalary (v : ℚ) (a : SalaryLine) :
    ∀ l : List SalaryLine,
      (List.orderedInsert salaryOrder a l).filter (fun b => decide (b.totalSalary = v))
        = (a :: l).filter fun b => decide (b.totalSalary = v) := by
  intro l
  induction l with
  | nil => rfl
  | cons b l ih =>
    rw [List.orderedInsert]
    by_cases h : salaryOrder a b
    · rw [if_pos h]
    · rw [if_neg h]
      have hlt : a.totalSalary < b.totalSalary := lt_of_not_le h
      by_cases hb : b.totalSalary = v
      · have ha : ¬ a.totalSalary = v := fun hv => absurd (hv ▸ hb.symm ▸ hlt) (lt_irrefl _)
        simp only [List.filter_cons, hb, ha, decide_True, decide_False, decide_eq_true_eq,
          if_true, if_false, ih]
        simp [ha, hb]
      · simp only [List.filter_cons, hb, decide_False, decide_eq_true_eq, if_false, ih]
        simp [hb]

/-- Stability of the stable descending sort: the lines at any fixed
`totalSalary` value appear in the sorted output exactly in their input
order. -/
theorem filter_insertionSort_totalSalary (v : ℚ) :
    ∀ l : List SalaryLine,
      (List.insertionSort salaryOrder l).filter (fun b => decide (b.totalSalary = v))
        = l.filter fun b => decide (b.totalSalary = v) := by
  intro l
  induction l with
  | nil => rfl
  | cons b l ih =>
    rw [List.insertionSort, filter_orderedInsert_totalSalary, List.filter_cons,
      List.filter_cons, ih]

/-- C6.  The report's employee list is sorted in descending order of
`totalSalary` (`salaryOrder a b` says `b.totalSalary ≤ a.totalSalary`), and
the sort is stable: for every salary value `v`, the lines with
`totalSalary = v` appear in exactly the order in which the corresponding
employees appear in the input list. -/
theorem calculateSalaries_sorted_stable (E : List EmployeeIn) (rd : List RevenueAgg)
    (inv : InventoryResult) (m y im iy : Nat) (sr rp : ℚ) :
    List.Sorted salaryOrder (calculateSalaries E rd inv m y im iy sr rp).employees
    ∧ ∀ v : ℚ,
        ((calculateSalaries E rd inv m y im iy sr rp).employees.filter
          fun l => decide (l.totalSalary = v))
        = ((E.map (salaryLine sr rp inv.totalLoss rd)).filter
            fun l => decide (0 < l.shiftsCount)).filter
              fun l => decide (l.totalSalary = v) := by
  constructor
  · rw [calculateSalaries_employees]
    exact List.sorted_insertionSort salaryOrder _
  · intro v
    rw [calculateSalaries_employees, filter_insertionSort_totalSalary]

/-! ## Helper lemmas: validation -/

theorem mem_errIf {m msg : String} {b : Bool} : m ∈ errIf b msg ↔ b = true ∧ m = msg := by
  cases b <;> simp [errIf]

/-- C7.  `validateCalculationParams` collects every violated rule: each of
the six messages is present exactly when its rule is violated, and the
result is valid exactly when no message was collected.  In particular, with
account and access token present but `month = 13`, `year = 1999`,
`shiftRate = −1` and `revenuePercent = 150`, it returns `isValid = false`
with exactly the four distinct messages of the four violated rules. -/
theorem validateCalculationParams_collects_all (p : SalaryParams) :
    ("Account is required" ∈ (validateCalculationParams p).errors
        ↔ strTruthy p.account = false)
    ∧ ("Access token is required" ∈ (validateCalculationParams p).errors
        ↔ strTruthy p.accessToken = false)
    ∧ ("Invalid month (must be 1-12)" ∈ (validateCalculationParams p).errors
        ↔ (qTruthy p.month = false ∨ p.month.getD 0 < 1 ∨ 12 < p.month.getD 0))
    ∧ ("Invalid year" ∈ (validateCalculationParams p).errors
        ↔ (qTruthy p.year = false ∨ p.year.getD 0 < 2000))
    ∧ ("Invalid shift rate" ∈ (validateCalculationParams p).errors
        ↔ (p.shiftRate = none ∨ p.shiftRate.getD 0 < 0))
    ∧ ("Invalid revenue percent (must be 0-100)" ∈ (validateCalculationParams p).errors
        ↔ (p.revenuePercent = none ∨ p.revenuePercent.getD 0 < 0
            ∨ 100 < p.revenuePercent.getD 0))
    ∧ ((validateCalculationParams p).isValid = true
        ↔ (validateCalculationParams p).errors = [])
    ∧ validateCalculationParams ⟨some "acc", some "token", some 13, some 1999,
          some (-1), some 150⟩
        = ⟨false, ["Invalid month (must be 1-12)", "Invalid year", "Invalid shift rate",
            "Invalid revenue percent (must be 0-100)"]⟩
    ∧ ["Invalid month (must be 1-12)", "Invalid year", "Invalid shift rate",
        "Invalid revenue percent (must be 0-100)"].Nodup := by
  refine ⟨?_, ?_, ?_, ?_, ?_, ?_, ?_, ?_, by decide⟩
  · simp [validateCalculationParams, mem_errIf, Option.isNone_iff_eq_none]
  · simp [validateCalculationParams, mem_errIf, Option.isNone_iff_eq_none]
  · simp [validateCalculationParams, mem_errIf, Option.isNone_iff_eq_none, or_assoc]
  · simp [validateCalculationParams, mem_errIf, Option.isNone_iff_eq_none]
  · simp [validateCalculationParams, mem_errIf, Option.isNone_iff_eq_none]
  · simp [validateCalculationParams, mem_errIf, Option.isNone_iff_eq_none, or_assoc]
  · simp [validateCalculationParams, List.length_eq_zero]
  · norm_num [validateCalculationParams, errIf, strTruthy, qTruthy]
    decide

/-- C1 witness: two employees with revenues 30 and 10 against a shortage of
10 receive pre-rounding deductions 7.5 and 2.5, which sum back to `10`
exactly. -/
theorem calculateSalaries_inventoryDeduction_proportional_witness :
    (([⟨1, 0, none, none⟩, ⟨2, 0, none, none⟩] : List EmployeeIn).map
        (inventoryDeductionRaw ((⟨1, 2024, -10, 0, []⟩ : InventoryResult).totalLoss)
          [⟨1, 30, 2⟩, ⟨2, 10, 1⟩])).sum
      = |(⟨1, 2024, -10, 0, []⟩ : InventoryResult).totalLoss| := by
  refine (calculateSalaries_inventoryDeduction_proportional
      [⟨1, 0, none, none⟩, ⟨2, 0, none, none⟩] [⟨1, 30, 2⟩, ⟨2, 10, 1⟩]
      ⟨1, 2024, -10, 0, []⟩ 1 2024 1 2024 500 5).2.2.2.2 ?_ ?_ [] ?_ ?_ ?_
  · show (-10 : ℚ) < 0
    norm_num
  · show (0 : ℚ) < totalRevenueOf [⟨1, 30, 2⟩, ⟨2, 10, 1⟩]
    norm_num [totalRevenueOf]
  · decide
  · decide
  · simp

/-! ## Helper machinery: characterising the aggregation loop -/

/-- `revenueByEmployee[id]` / `shiftsByEmployee[id]`: the bucket for `id`. -/
def lookupAgg (st : List AggEntry) (id : Nat) : Option AggEntry :=
  st.find? fun e => decide (e.employeeId = id)

/-- A freshly initialised bucket (lines 105–107, 111–113). -/
def initEntry (id : Nat) : AggEntry := ⟨id, some 0, []⟩

/-- The effect of one processed transaction on its own bucket. -/
def updEntry (e : AggEntry) (t : Transaction) : AggEntry :=
  ⟨e.employeeId, jsAccAdd e.revenue (parseTotal t.total),
    addDate e.dates (dateOnly (t.dateVal.getD ""))⟩

/-- Replay, on a single bucket, the transactions belonging to one employee. -/
def replayFor (id : Nat) : Option AggEntry → List Transaction → Option AggEntry
  | acc, [] => acc
  | acc, t :: ts => replayFor id (some (updEntry (acc.getD (initEntry id)) t)) ts

/-- The ids of the buckets, in insertion order (`Object.keys`). -/
def keysOf (st : List AggEntry) : List Nat := st.map (·.employeeId)

theorem lookupAgg_aggUpd_self (id : Nat) (v : Option ℚ) (d : String) :
    ∀ st : List AggEntry,
      lookupAgg (aggUpd id v d st) id
        = some (match lookupAgg st id with
                | some e => ⟨e.employeeId, jsAccAdd e.revenue v, addDate e.dates d⟩
                | none => ⟨id, jsAccAdd none v, addDate [] d⟩) := by
  intro st
  induction st with
  | nil => simp [lookupAgg, aggUpd, List.find?]
  | cons e rest ih =>
    by_cases h : e.employeeId = id
    · simp only [aggUpd, if_pos h, lookupAgg, List.find?, h, decide_True]
    · simp only [aggUpd, if_neg h, lookupAgg, List.find?, h, decide_False] at ih ⊢
      exact ih

theorem lookupAgg_aggUpd_other (id id' : Nat) (v : Option ℚ) (d : String) (h : id' ≠ id) :
    ∀ st : List AggEntry, lookupAgg (aggUpd id v d st) id' = lookupAgg st id' := by
  intro st
  induction st with
  | nil =>
    rw [lookupAgg, aggUpd, List.find?_cons_of_neg _ (by simp; exact fun he => h he.symm)]
    rfl
  | cons e rest ih =>
    by_cases hd : e.employeeId = id'
    · have he : ¬ e.employeeId = id := fun hc => h (hd ▸ hc ▸ rfl)
      rw [lookupAgg, aggUpd, if_neg he, List.find?_cons_of_pos _ (by simp [hd]),
        lookupAgg, List.find?_cons_of_pos _ (by simp [hd])]
    · by_cases he : e.employeeId = id
      · rw [lookupAgg, aggUpd, if_pos he, List.find?_cons_of_neg _ (by simp [hd]),
          lookupAgg, List.find?_cons_of_neg _ (by simp [hd])]
      · rw [lookupAgg, aggUpd, if_neg he, List.find?_cons_of_neg _ (by simp [hd]),
          lookupAgg, List.find?_cons_of_neg _ (by simp [hd])]
        exact ih

/-- Running the loop affects each bucket exactly by replaying, in order, the
transactions that belong to it. -/
theorem aggRun_lookup :
    ∀ (ts : List Transaction) (st st' : List AggEntry), aggRun st ts = some st' →
      ∀ id : Nat, id ≠ 0 →
        lookupAgg st' id = replayFor id (lookupAgg st id) (tsFor id ts) := by
  intro ts
  induction ts with
  | nil =>
    intro st st' h id _
    rw [show st' = st from (Option.some_injective _ h).symm]
    rfl
  | cons t ts ih =>
    intro st st' h id hid
    rw [aggRun, aggStep] at h
    by_cases h0 : t.empId = 0
    · rw [if_pos h0] at h
      have hskip : tsFor id (t :: ts) = tsFor id ts := by
        rw [tsFor, List.filter_cons_of_neg (by simp [h0, Ne.symm hid]), tsFor]
      rw [hskip]
      exact ih st st' h id hid
    · rw [if_neg h0] at h
      cases hdv : t.dateVal with
      | none => rw [hdv] at h; cases h
      | some s =>
        rw [hdv] at h
        by_cases hit : t.empId = id
        · have hkeep : tsFor id (t :: ts) = t :: tsFor id ts := by
            rw [tsFor, List.filter_cons_of_pos (by simp [hit]), tsFor]
          rw [hkeep, replayFor, ih _ st' h id hid, hit, lookupAgg_aggUpd_self]
          congr 1
          cases hl : lookupAgg st id with
          | none => simp [updEntry, initEntry, jsAccAdd, hdv, hit]
          | some e => simp [updEntry, jsAccAdd, hdv, hit]
        · have hskip : tsFor id (t :: ts) = tsFor id ts := by
            rw [tsFor, List.filter_cons_of_neg (by simp [hit]), tsFor]
          rw [hskip, ← lookupAgg_aggUpd_other t.empId id (parseTotal t.total) (dateOnly s)
            (fun hc => hit hc.symm) st]
          exact ih _ st' h id hid

theorem replayFor_some (id : Nat) :
    ∀ (l : List Transaction) (e₀ : AggEntry),
      replayFor id (some e₀) l = some (l.foldl updEntry e₀) := by
  intro l
  induction l with
  | nil => intro e₀; rfl
  | cons t l ih => intro e₀; rw [replayFor, List.foldl_cons]; exact ih _

theorem foldl_updEntry_spec :
    ∀ (l : List Transaction) (e₀ : AggEntry),
      l.foldl updEntry e₀
        = ⟨e₀.employeeId,
            (l.map fun t => parseTotal t.total).foldl jsAccAdd e₀.revenue,
            (l.map fun t => dateOnly (t.dateVal.getD "")).foldl addDate e₀.dates⟩ := by
  intro l
  induction l with
  | nil => intro e₀; rfl
  | cons t l ih =>
    intro e₀
    rw [List.foldl_cons, ih, List.map_cons, List.map_cons, List.foldl_cons, List.foldl_cons]
    rfl

/-- Replaying a nonempty transaction list onto a fresh bucket: the revenue is
the running (`NaN`-absorbing) sum of the coerced totals from `0`, the date
set collects the distinct date-portions in first-seen order. -/
theorem replayFor_none (id : Nat) (t : Transaction) (l : List Transaction) :
    replayFor id none (t :: l)
      = some ⟨id, jsSum (((t :: l)).map fun t => parseTotal t.total),
          (((t :: l)).map fun t => dateOnly (t.dateVal.getD "")).foldl addDate []⟩ := by
  rw [replayFor, Option.getD_none, replayFor_some, foldl_updEntry_spec]
  rfl

theorem keysOf_aggUpd (id : Nat) (v : Option ℚ) (d : String) :
    ∀ st : List AggEntry,
      keysOf (aggUpd id v d st)
        = if id ∈ keysOf st then keysOf st else keysOf st ++ [id] := by
  intro st
  induction st with
  | nil => rfl
  | cons e rest ih =>
    by_cases h : e.employeeId = id
    · simp [aggUpd, keysOf, h]
    · by_cases hm : id ∈ keysOf rest
      · simp only [keysOf, List.map_cons] at ih ⊢
        simp only [aggUpd, if_neg h, List.map_cons]
        rw [ih]
        simp only [keysOf] at hm
        simp [hm]
      · simp only [keysOf, List.map_cons] at ih ⊢
        simp only [aggUpd, if_neg h, List.map_cons]
        rw [ih]
        simp only [keysOf] at hm
        simp [hm, Ne.symm h]

/-- The loop never duplicates a bucket key and only ever adds the (nonzero)
id of a processed transaction. -/
theorem aggRun_keys :
    ∀ (ts : List Transaction) (st st' : List AggEntry), aggRun st ts = some st' →
      ((keysOf st).Nodup → (keysOf st').Nodup)
      ∧ (∀ k, k ∈ keysOf st' ↔ k ∈ keysOf st ∨ ∃ t ∈ ts, t.empId = k ∧ t.empId ≠ 0) := by
  intro ts
  induction ts with
  | nil =>
    intro st st' h
    rw [show st' = st from (Option.some_injective _ h).symm]
    exact ⟨id, fun k => by simp⟩
  | cons t ts ih =>
    intro st st' h
    rw [aggRun, aggStep] at h
    by_cases h0 : t.empId = 0
    · rw [if_pos h0] at h
      refine ⟨(ih st st' h).1, fun k => ?_⟩
      rw [(ih st st' h).2 k]
      constructor
      · rintro (hk | ⟨u, hu, hx⟩)
        · exact Or.inl hk
        · exact Or.inr ⟨u, List.mem_cons_of_mem _ hu, hx⟩
      · rintro (hk | ⟨u, hu, hx⟩)
        · exact Or.inl hk
        · rcases List.mem_cons.mp hu with rfl | hu
          · exact absurd h0 hx.2
          · exact Or.inr ⟨u, hu, hx⟩
    · rw [if_neg h0] at h
      cases hdv : t.dateVal with
      | none => rw [hdv] at h; cases h
      | some s =>
        rw [hdv] at h
        have hkeys := keysOf_aggUpd t.empId (parseTotal t.total) (dateOnly s) st
        refine ⟨fun hnd => (ih _ st' h).1 ?_, fun k => ?_⟩
        · rw [hkeys]
          by_cases hm : t.empId ∈ keysOf st
          · rwa [if_pos hm]
          · rw [if_neg hm]
            simp [List.nodup_append, hnd, hm]
        · rw [(ih _ st' h).2 k, hkeys]
          by_cases hm : t.empId ∈ keysOf st
          · rw [if_pos hm]
            constructor
            · rintro (hk | ⟨u, hu, hx⟩)
              · exact Or.inl hk
              · exact Or.inr ⟨u, List.mem_cons_of_mem _ hu, hx⟩
            · rintro (hk | ⟨u, hu, hx⟩)
              · exact Or.inl hk
              · rcases List.mem_cons.mp hu with rfl | hu
                · exact Or.inl (hx.1 ▸ hm)
                · exact Or.inr ⟨u, hu, hx⟩
          · rw [if_neg hm]
            constructor
            · rintro (hk | ⟨u, hu, hx⟩)
              · rcases List.mem_append.mp hk with hk | hk
                · exact Or.inl hk
                · rw [List.mem_singleton] at hk
                  exact Or.inr ⟨t, List.mem_cons_self _ _, hk.symm, h0⟩
              · exact Or.inr ⟨u, List.mem_cons_of_mem _ hu, hx⟩
            · rintro (hk | ⟨u, hu, hx⟩)
              · exact Or.inl (List.mem_append.mpr (Or.inl hk))
              · rcases List.mem_cons.mp hu with rfl | hu
                · exact Or.inl (List.mem_append.mpr (Or.inr (by simp [hx.1])))
                · exact Or.inr ⟨u, hu, hx⟩

/-- When the loop completes, every processed transaction had a usable date
(otherwise `.split` would have thrown). -/
theorem aggRun_dateVal :
    ∀ (ts : List Transaction) (st st' : List AggEntry), aggRun st ts = some st' →
      ∀ t ∈ ts, t.empId ≠ 0 → t.dateVal.isSome := by
  intro ts
  induction ts with
  | nil => intro st st' _ t ht; cases ht
  | cons u ts ih =>
    intro st st' h t ht h0
    rw [aggRun, aggStep] at h
    rcases List.mem_cons.mp ht with rfl | ht
    · rw [if_neg h0] at h
      cases hdv : t.dateVal with
      | none => rw [hdv] at h; cases h
      | some s => rfl
    · by_cases hu : u.empId = 0
      · rw [if_pos hu] at h
        exact ih st st' h t ht h0
      · rw [if_neg hu] at h
        cases hdv : u.dateVal with
        | none => rw [hdv] at h; cases h
        | some s =>
          rw [hdv] at h
          exact ih _ st' h t ht h0

/-- Conversely the loop completes whenever every processed transaction
carries a date: totals never make it throw. -/
theorem aggRun_isSome :
    ∀ (ts : List Transaction) (st : List AggEntry),
      (∀ t ∈ ts, t.empId ≠ 0 → t.dateVal.isSome) → (aggRun st ts).isSome := by
  intro ts
  induction ts with
  | nil => intro st _; rfl
  | cons t ts ih =>
    intro st hd
    rw [aggRun, aggStep]
    by_cases h0 : t.empId = 0
    · rw [if_pos h0]
      exact ih st fun u hu => hd u (List.mem_cons_of_mem _ hu)
    · rw [if_neg h0]
      cases hdv : t.dateVal with
      | none =>
        have := hd t (List.mem_cons_self _ _) h0
        rw [hdv] at this
        cases this
      | some s => exact ih _ fun u hu => hd u (List.mem_cons_of_mem _ hu)

/-- Records lacking an employee identifier are skipped: dropping them changes
nothing. -/
theorem aggRun_filter_processed :
    ∀ (ts : List Transaction) (st : List AggEntry),
      aggRun st (ts.filter fun t => decide (t.empId ≠ 0)) = aggRun st ts := by
  intro ts
  induction ts with
  | nil => intro st; rfl
  | cons t ts ih =>
    intro st
    by_cases h0 : t.empId = 0
    · rw [List.filter_cons_of_neg (by simp [h0]), aggRun, aggStep, if_pos h0, ih]
    · rw [List.filter_cons_of_pos (by simp [h0]), aggRun, aggStep, aggRun, aggStep, if_neg h0]
      cases hdv : t.dateVal with
      | none => rfl
      | some s => exact ih _

/-- In a bucket list with distinct keys, looking up an element's own key
finds that element. -/
theorem lookupAgg_of_mem_nodup :
    ∀ (st : List AggEntry), (keysOf st).Nodup →
      ∀ e ∈ st, lookupAgg st e.employeeId = some e := by
  intro st
  induction st with
  | nil => intro _ e he; cases he
  | cons b st ih =>
    intro hnd e he
    rw [keysOf, List.map_cons, List.nodup_cons] at hnd
    rcases List.mem_cons.mp he with rfl | he
    · rw [lookupAgg, List.find?_cons_of_pos _ (by simp)]
    · have hne : ¬ b.employeeId = e.employeeId := fun hc =>
        hnd.1 (hc ▸ List.mem_map_of_mem (·.employeeId) he)
      rw [lookupAgg, List.find?_cons_of_neg _ (by simp [hne])]
      exact ih hnd.2 e he

/-- The date set stays duplicate-free and collects exactly the dates seen. -/
theorem foldl_addDate_spec :
    ∀ (l : List String) (ds : List String), ds.Nodup →
      (l.foldl addDate ds).Nodup ∧ (l.foldl addDate ds).toFinset = ds.toFinset ∪ l.toFinset := by
  intro l
  induction l with
  | nil => intro ds h; exact ⟨h, by simp⟩
  | cons d l ih =>
    intro ds h
    rw [List.foldl_cons]
    have hnd : (addDate ds d).Nodup := by
      rw [addDate]
      by_cases hm : d ∈ ds
      · rwa [if_pos hm]
      · rw [if_neg hm]
        simp [List.nodup_append, h, hm]
    have hfs : (addDate ds d).toFinset = insert d ds.toFinset := by
      rw [addDate]
      by_cases hm : d ∈ ds
      · rw [if_pos hm, Finset.insert_eq_self.mpr (List.mem_toFinset.mpr hm)]
      · rw [if_neg hm]
        rw [List.toFinset_append, List.toFinset_cons, List.toFinset_nil,
          Finset.union_comm, Finset.insert_union, Finset.empty_union]
    refine ⟨(ih _ hnd).1, ?_⟩
    rw [(ih _ hnd).2, hfs, List.toFinset_cons]
    ext x
    simp [or_comm, or_assoc, or_left_comm]

/-- The size of the date set is the number of distinct dates seen. -/
theorem foldl_addDate_length (l : List String) :
    (l.foldl addDate []).length = l.dedup.length := by
  obtain ⟨hnd, hfs⟩ := foldl_addDate_spec l [] (by simp)
  rw [← List.toFinset_card_of_nodup hnd, hfs, ← List.card_toFinset]
  simp

/-- A `NaN`-free run of the accumulator is the plain sum. -/
theorem jsSum_eq_sum :
    ∀ l : List (Option ℚ), (∀ v ∈ l, v ≠ none) →
      jsSum l = some ((l.map fun v => v.getD 0).sum) := by
  have haux : ∀ (l : List (Option ℚ)) (a : ℚ), (∀ v ∈ l, v ≠ none) →
      l.foldl jsAccAdd (some a) = some (a + (l.map fun v => v.getD 0).sum) := by
    intro l
    induction l with
    | nil => intro a _; simp
    | cons v l ih =>
      intro a hv
      cases v with
      | none => exact absurd rfl (hv none (List.mem_cons_self _ _))
      | some q =>
        rw [List.foldl_cons, show jsAccAdd (some a) (some q) = some (a + q) from rfl,
          ih _ fun w hw => hv w (List.mem_cons_of_mem _ hw)]
        simp [add_assoc]
  intro l hl
  rw [jsSum, haux l 0 hl, zero_add]

/-- A final bad total leaves the accumulator at `NaN`. -/
theorem jsSum_append_none_nil (l : List (Option ℚ)) : jsSum (l ++ [none]) = none := by
  rw [jsSum, List.foldl_append]
  cases l.foldl jsAccAdd (some 0) <;> rfl

/-- A bad total followed by another transaction is wiped out together with
everything accumulated before it: the falsy-check resets the `NaN` to `0`. -/
theorem jsSum_append_none_cons (l : List (Option ℚ)) (v : Option ℚ) (p : List (Option ℚ)) :
    jsSum (l ++ none :: v :: p) = jsSum (v :: p) := by
  rw [jsSum, List.foldl_append, List.foldl_cons, List.foldl_cons]
  have h1 : jsAccAdd (l.foldl jsAccAdd (some 0)) none = none := by
    cases l.foldl jsAccAdd (some 0) <;> rfl
  rw [h1, jsSum, List.foldl_cons]
  have h2 : jsAccAdd none v = jsAccAdd (some 0) v := by cases v <;> rfl
  rw [h2]

/-- Unpack a successful `getEmployeeRevenue` run. -/
theorem getEmployeeRevenue_run {ts : List Transaction} {res : List RevAggOut}
    (h : getEmployeeRevenue ts = some res) :
    ∃ st', aggRun [] ts = some st'
      ∧ res = st'.map (fun e => ⟨e.employeeId, e.revenue, e.dates.length⟩)
      ∧ (keysOf st').Nodup := by
  rw [getEmployeeRevenue] at h
  cases hrun : aggRun [] ts with
  | none => rw [hrun] at h; cases h
  | some st' =>
    rw [hrun] at h
    exact ⟨st', rfl, (Option.some_injective _ h).symm,
      (aggRun_keys ts [] st' hrun).1 (by simp [keysOf])⟩

/-- Per-aggregate characterisation of a successful run: each aggregate
belongs to a nonzero id that some transaction carries, its revenue is the
running coerced sum of that id's totals, and its shift count is the number
of distinct date-portions of that id's transactions. -/
theorem getEmployeeRevenue_entry_spec {ts : List Transaction} {res : List RevAggOut}
    (h : getEmployeeRevenue ts = some res) :
    ∀ a ∈ res, a.employeeId ≠ 0
      ∧ (∃ t ∈ ts, t.empId = a.employeeId)
      ∧ a.revenue = jsSum ((tsFor a.employeeId ts).map fun t => parseTotal t.total)
      ∧ a.shiftsCount
          = ((tsFor a.employeeId ts).map fun t => dateOnly (t.dateVal.getD "")).dedup.length := by
  obtain ⟨st', hrun, rfl, hnd⟩ := getEmployeeRevenue_run h
  intro a ha
  obtain ⟨e, he, rfl⟩ := List.mem_map.mp ha
  have hks := (aggRun_keys ts [] st' hrun).2 e.employeeId
  have hkey : e.employeeId ∈ keysOf st' := List.mem_map_of_mem (·.employeeId) he
  rcases hks.mp hkey with hc | ⟨t, ht, hte, htn⟩
  · cases hc
  have hid : e.employeeId ≠ 0 := hte ▸ htn
  have hlook : lookupAgg st' e.employeeId = some e := lookupAgg_of_mem_nodup st' hnd e he
  rw [aggRun_lookup ts [] st' hrun e.employeeId hid] at hlook
  have hnil : lookupAgg [] e.employeeId = none := rfl
  rw [hnil] at hlook
  cases hts : tsFor e.employeeId ts with
  | nil => rw [hts] at hlook; cases hlook
  | cons t0 l0 =>
    rw [hts, replayFor_none] at hlook
    have he' := Option.some_injective _ hlook
    refine ⟨hid, ⟨t, ht, hte⟩, ?_, ?_⟩
    · show e.revenue = _
      rw [← he']
    · show e.dates.length = _
      rw [← he']
      exact foldl_addDate_length _

/-- C4.  `getEmployeeRevenue` groups sale transactions by employee id —
silently skipping records whose id is absent — accumulates the coerced
totals per employee with the falsy-resetting `+=` of lines 105–108 (the
plain sum of the totals whenever they are all well-formed), and counts as
`shiftsCount` the number of DISTINCT date-portions (time of day discarded by
`split(' ')[0]`) of that employee's transactions: two same-day transactions
at different times contribute one shift. -/
theorem getEmployeeRevenue_grouping (ts : List Transaction) (res : List RevAggOut)
    (h : getEmployeeRevenue ts = some res) :
    getEmployeeRevenue (ts.filter fun t => decide (t.empId ≠ 0)) = some res
    ∧ (∀ id, id ≠ 0 → ((∃ a ∈ res, a.employeeId = id) ↔ ∃ t ∈ ts, t.empId = id))
    ∧ (∀ a ∈ res, a.revenue = jsSum ((tsFor a.employeeId ts).map fun t => parseTotal t.total))
    ∧ (∀ a ∈ res, (∀ t ∈ tsFor a.employeeId ts, parseTotal t.total ≠ none) →
        a.revenue
          = some (((tsFor a.employeeId ts).map fun t => (parseTotal t.total).getD 0).sum))
    ∧ (∀ a ∈ res, a.shiftsCount
        = ((tsFor a.employeeId ts).map fun t => dateOnly (t.dateVal.getD "")).dedup.length) := by
  obtain ⟨st', hrun, hres, hnd⟩ := getEmployeeRevenue_run h
  refine ⟨?_, ?_, fun a ha => ((getEmployeeRevenue_entry_spec h) a ha).2.2.1,
    fun a ha hclean => by
      rw [((getEmployeeRevenue_entry_spec h) a ha).2.2.1,
        jsSum_eq_sum _ (by
          intro v hv
          obtain ⟨t, ht, rfl⟩ := List.mem_map.mp hv
          exact hclean t ht), List.map_map]
      rfl,
    fun a ha => ((getEmployeeRevenue_entry_spec h) a ha).2.2.2⟩
  · rw [getEmployeeRevenue, aggRun_filter_processed, ← getEmployeeRevenue]
    exact h
  · intro id hid
    constructor
    · rintro ⟨a, ha, rfl⟩
      exact ((getEmployeeRevenue_entry_spec h) a ha).2.1
    · rintro ⟨t, ht, rfl⟩
      have hkey : t.empId ∈ keysOf st' :=
        ((aggRun_keys ts [] st' hrun).2 t.empId).mpr (Or.inr ⟨t, ht, rfl, hid⟩)
      obtain ⟨e, he, heid⟩ := List.mem_map.mp hkey
      exact ⟨⟨e.employeeId, e.revenue, e.dates.length⟩,
        hres ▸ List.mem_map_of_mem _ he, heid⟩

/-- C10.  Each distinct employee id occurs in exactly one aggregate of
`getEmployeeRevenue`'s result (the id list is duplicate-free), every
aggregate's id is nonzero and is carried by at least one transaction with a
usable timestamp, and every aggregate records at least one shift. -/
theorem getEmployeeRevenue_aggregate_invariants (ts : List Transaction)
    (res : List RevAggOut) (h : getEmployeeRevenue ts = some res) :
    (res.map RevAggOut.employeeId).Nodup
    ∧ ∀ a ∈ res, 0 < a.shiftsCount ∧ a.employeeId ≠ 0
        ∧ ∃ t ∈ ts, t.empId = a.employeeId ∧ t.dateVal.isSome := by
  obtain ⟨st', hrun, hres, hnd⟩ := getEmployeeRevenue_run h
  constructor
  · rw [hres, List.map_map]
    exact hnd
  · intro a ha
    obtain ⟨hid, ⟨t, ht, hte⟩, -, hcount⟩ := (getEmployeeRevenue_entry_spec h) a ha
    have hdate : t.dateVal.isSome := aggRun_dateVal ts [] st' hrun t ht (hte ▸ hid)
    refine ⟨?_, hid, t, ht, hte, hdate⟩
    have htmem : t ∈ tsFor a.employeeId ts := by
      rw [tsFor, List.mem_filter]
      exact ⟨ht, by simp [hte]⟩
    have hmem : dateOnly (t.dateVal.getD "")
        ∈ ((tsFor a.employeeId ts).map fun t => dateOnly (t.dateVal.getD "")).dedup := by
      rw [List.mem_dedup]
      exact List.mem_map_of_mem _ htmem
    rw [hcount]
    exact List.length_pos.mpr (List.ne_nil_of_mem hmem)

/-- C9 (amended).  Falsy `total` fields (absent, `0`, `""`) are coerced to
`0` and totals never make the aggregation throw; each employee's revenue is
the running `+=` accumulation in which every step resets a falsy (`NaN`)
accumulator to `0` before adding `parseFloat(total || 0)`.  When no total of
the employee is a truthy non-numeric string this is exactly the plain sum of
the coerced totals; a truthy non-numeric string, however, is NOT treated as
`0`: it turns the accumulator into `NaN` — reported as-is if it is the
employee's last total, and otherwise reset to `0` by the next transaction,
silently discarding all revenue accumulated before it. -/
theorem getEmployeeRevenue_malformed_totals (ts : List Transaction)
    (res : List RevAggOut) (h : getEmployeeRevenue ts = some res) :
    (parseTotal .missing = some 0 ∧ parseTotal .strEmpty = some 0
      ∧ parseTotal (.num 0) = some 0 ∧ parseTotal .strBad = none)
    ∧ (∀ us : List Transaction, (∀ t ∈ us, t.empId ≠ 0 → t.dateVal.isSome) →
        (getEmployeeRevenue us).isSome)
    ∧ (∀ a ∈ res, a.revenue = jsSum ((tsFor a.employeeId ts).map fun t => parseTotal t.total))
    ∧ (∀ a ∈ res, (∀ t ∈ tsFor a.employeeId ts, parseTotal t.total ≠ none) →
        a.revenue
          = some (((tsFor a.employeeId ts).map fun t => (parseTotal t.total).getD 0).sum))
    ∧ (∀ l : List (Option ℚ), jsSum (l ++ [none]) = none)
    ∧ (∀ (l : List (Option ℚ)) (v : Option ℚ) (p : List (Option ℚ)),
        jsSum (l ++ none :: v :: p) = jsSum (v :: p)) := by
  refine ⟨⟨rfl, rfl, rfl, rfl⟩, ?_, fun a ha => ((getEmployeeRevenue_entry_spec h) a ha).2.2.1,
    ?_, jsSum_append_none_nil, jsSum_append_none_cons⟩
  · intro us hus
    rw [getEmployeeRevenue]
    have := aggRun_isSome us [] hus
    cases hr : aggRun [] us with
    | none => rw [hr] at this; cases this
    | some st => rfl
  · intro a ha hclean
    rw [((getEmployeeRevenue_entry_spec h) a ha).2.2.1,
      jsSum_eq_sum _ (by
        intro v hv
        obtain ⟨t, ht, rfl⟩ := List.mem_map.mp hv
        exact hclean t ht), List.map_map]
    rfl

/-- C4 witness: two sale transactions of employee `7` on the same calendar
date at different times yield one aggregate with the summed revenue and a
single shift. -/
theorem getEmployeeRevenue_grouping_witness :
    getEmployeeRevenue
        [⟨7, 0, none, some "2024-03-05 13:00", .num 4⟩,
          ⟨7, 0, none, some "2024-03-05 19:00", .num 5⟩]
      = some [⟨7, some 9, 1⟩]
    ∧ ∀ a ∈ [(⟨7, some 9, 1⟩ : RevAggOut)],
        a.shiftsCount
          = ((tsFor a.employeeId
              [⟨7, 0, none, some "2024-03-05 13:00", .num 4⟩,
                ⟨7, 0, none, some "2024-03-05 19:00", .num 5⟩]).map
              fun t => dateOnly (t.dateVal.getD "")).dedup.length := by
  have heval : getEmployeeRevenue
      [⟨7, 0, none, some "2024-03-05 13:00", .num 4⟩,
        ⟨7, 0, none, some "2024-03-05 19:00", .num 5⟩]
      = some [⟨7, some 9, 1⟩] := by
    have hd1 : dateOnly "2024-03-05 13:00" = "2024-03-05" := by decide
    have hd2 : dateOnly "2024-03-05 19:00" = "2024-03-05" := by decide
    simp [getEmployeeRevenue, aggRun, aggStep, Transaction.empId, Transaction.dateVal,
      strTruthy, aggUpd, addDate, parseTotal, jsAccAdd, qadd, hd1, hd2]
    norm_num
  exact ⟨heval, (getEmployeeRevenue_grouping _ _ heval).2.2.2.2⟩

/-- C10 witness: a single timestamped sale of employee `3` yields one
aggregate, with a duplicate-free id list and one shift. -/
theorem getEmployeeRevenue_aggregate_invariants_witness :
    getEmployeeRevenue [⟨3, 0, none, some "2024-04-01 09:30", .missing⟩]
      = some [⟨3, some 0, 1⟩]
    ∧ (([(⟨3, some 0, 1⟩ : RevAggOut)]).map RevAggOut.employeeId).Nodup
    ∧ ∀ a ∈ [(⟨3, some 0, 1⟩ : RevAggOut)], 0 < a.shiftsCount ∧ a.employeeId ≠ 0
        ∧ ∃ t ∈ [(⟨3, 0, none, some "2024-04-01 09:30", .missing⟩ : Transaction)],
            t.empId = a.employeeId ∧ t.dateVal.isSome := by
  have heval : getEmployeeRevenue [⟨3, 0, none, some "2024-04-01 09:30", .missing⟩]
      = some [⟨3, some 0, 1⟩] := by
    have hd1 : dateOnly "2024-04-01 09:30" = "2024-04-01" := by decide
    simp [getEmployeeRevenue, aggRun, aggStep, Transaction.empId, Transaction.dateVal,
      strTruthy, aggUpd, addDate, parseTotal, jsAccAdd, qadd, hd1]
  exact ⟨heval, (getEmployeeRevenue_aggregate_invariants _ _ heval).1,
    (getEmployeeRevenue_aggregate_invariants _ _ heval).2⟩

/-- C9 counterexample.  Employee `1` has well-formed totals `5` and `3`
around one truthy non-numeric string total.  `parseFloat` of the bad total
is `NaN`; the falsy-check of the next `+=` resets the accumulator to `0`, so
the reported revenue is `3` — not `8`, the sum over the remaining
well-formed totals that treating the malformed total as `0` would give. -/
theorem getEmployeeRevenue_bad_total_discards_sum :
    getEmployeeRevenue
        [⟨1, 0, none, some "2024-03-05 10:00", .num 5⟩,
          ⟨1, 0, none, some "2024-03-05 13:00", .strBad⟩,
          ⟨1, 0, none, some "2024-03-05 19:00", .num 3⟩]
      = some [⟨1, some 3, 1⟩]
    ∧ some (3 : ℚ) ≠ some (8 : ℚ)
    ∧ ((5 : ℚ) + 3 = 8) := by
  refine ⟨?_, by simp, by norm_num⟩
  have hd1 : dateOnly "2024-03-05 10:00" = "2024-03-05" := by decide
  have hd2 : dateOnly "2024-03-05 13:00" = "2024-03-05" := by decide
  have hd3 : dateOnly "2024-03-05 19:00" = "2024-03-05" := by decide
  simp [getEmployeeRevenue, aggRun, aggStep, Transaction.empId, Transaction.dateVal,
    strTruthy, aggUpd, addDate, parseTotal, jsAccAdd, qadd, hd1, hd2, hd3]

/-- C9 witness: employee `2` with one missing total (coerced to `0`) and one
numeric total `3` on two distinct days gets revenue `some 3`, matching the
plain sum of the coerced totals. -/
theorem getEmployeeRevenue_malformed_totals_witness :
    getEmployeeRevenue
        [⟨2, 0, none, some "2024-05-06 08:00", .missing⟩,
          ⟨2, 0, none, some "2024-05-07 10:00", .num 3⟩]
      = some [⟨2, some 3, 2⟩]
    ∧ ∀ a ∈ [(⟨2, some 3, 2⟩ : RevAggOut)],
        (∀ t ∈ tsFor a.employeeId
            [⟨2, 0, none, some "2024-05-06 08:00", .missing⟩,
              ⟨2, 0, none, some "2024-05-07 10:00", .num 3⟩],
          parseTotal t.total ≠ none) →
        a.revenue = some (((tsFor a.employeeId
            [⟨2, 0, none, some "2024-05-06 08:00", .missing⟩,
              ⟨2, 0, none, some "2024-05-07 10:00", .num 3⟩]).map
          fun t => (parseTotal t.total).getD 0).sum) := by
  have heval : getEmployeeRevenue
      [⟨2, 0, none, some "2024-05-06 08:00", .missing⟩,
        ⟨2, 0, none, some "2024-05-07 10:00", .num 3⟩]
      = some [⟨2, some 3, 2⟩] := by
    have hd1 : dateOnly "2024-05-06 08:00" = "2024-05-06" := by decide
    have hd2 : dateOnly "2024-05-07 10:00" = "2024-05-07" := by decide
    simp [getEmployeeRevenue, aggRun, aggStep, Transaction.empId, Transaction.dateVal,
      strTruthy, aggUpd, addDate, parseTotal, jsAccAdd, qadd, hd1, hd2]
  exact ⟨heval, (getEmployeeRevenue_malformed_totals _ _ heval).2.2.2.1⟩
